import Mathlib

/-!
Shallow embedding of the yield-projection and trade-analytics kernel of the
solana-agent-toolkit repository.

Numbers are modelled as rationals.  The JavaScript floating-point primitives
`Math.pow` and `Math.sqrt` are modelled abstractly by a `MathPrims` record of
functions on `ℚ`; theorems that depend on identities of `Math.pow` (such as
`pow 1 x = 1` and `pow x 0 = 1`, which hold for the IEEE primitive) take those
identities as hypotheses.  The impure random source `Math.random` is modelled
by an explicit stream `rand : ℕ → ℚ` giving the result of the successive calls.
-/

/-- Abstract model of the JS `Math.pow` / `Math.sqrt` primitives. -/
structure MathPrims where
  pow : ℚ → ℚ → ℚ
  sqrt : ℚ → ℚ

/-- A drift/volatility pair, one entry of `PRICE_SCENARIOS` in
`src/yield/jlp-simulator.js`. -/
structure ScenParams where
  drift : ℚ
  volatility : ℚ

/-- `PRICE_SCENARIOS.stable = { drift: 0, volatility: 0.02 }`. -/
def stableScen : ScenParams := ⟨0, 2 / 100⟩

/-- `calculateCompoundInterest(principal, apy, days, compoundFrequency = 365)`
from `src/yield/jlp-simulator.js`:
`rate = apy/100; periods = days/(365/compoundFrequency);`
`return principal * Math.pow(1 + rate/compoundFrequency, periods)`. -/
def calculateCompoundInterest (prims : MathPrims)
    (principal apy days compoundFrequency : ℚ) : ℚ :=
  let rate := apy / 100
  let periods := days / (365 / compoundFrequency)
  principal * prims.pow (1 + rate / compoundFrequency) periods

/-- The loop `for (let i = 1; i <= days; i++)` of `simulatePricePath`, with the
remaining iteration count as fuel: at step `i` it draws `rand i`, forms the
shock `(rand i - 0.5) * 2 * dailyVol` and the next price
`price * (1 + dailyDrift + shock)`, and pushes the price. -/
def pathFrom (dailyDrift dailyVol : ℚ) (rand : ℕ → ℚ) :
    ℚ → ℕ → ℕ → List ℚ
  | _, _, 0 => []
  | price, i, n + 1 =>
    let randomShock := (rand i - 1 / 2) * 2 * dailyVol
    let p := price * (1 + dailyDrift + randomShock)
    p :: pathFrom dailyDrift dailyVol rand p (i + 1) n

/-- `simulatePricePath(startPrice, days, scenario)` from
`src/yield/jlp-simulator.js`: `dailyDrift = drift/365`,
`dailyVol = volatility/Math.sqrt(365)`, then the prices list starts with
`startPrice` and the loop body runs for `i = 1 .. days` (so `max days 0`
times when `days` is an integer). -/
def simulatePricePath (prims : MathPrims) (startPrice : ℚ) (days : ℤ)
    (scen : ScenParams) (rand : ℕ → ℚ) : List ℚ :=
  let dailyDrift := scen.drift / 365
  let dailyVol := scen.volatility / prims.sqrt 365
  startPrice :: pathFrom dailyDrift dailyVol rand startPrice 1 days.toNat

/-- One element of the `results` array built by `runMonteCarlo`. -/
structure SimulationTrial where
  totalValue : ℚ
  yieldValue : ℚ
  priceReturn : ℚ
  roi : ℚ
deriving DecidableEq

/-- Placeholder for the `undefined` a JS out-of-bounds index would give;
every index actually used is in bounds for `iterations ≥ 1`. -/
def defaultTrial : SimulationTrial := ⟨0, 0, 0, 0⟩

/-- Body of the `for (let i = 0; i < iterations; i++)` loop of
`runMonteCarlo`: one simulated path on the stable profile from price `1.0`,
`endPrice = pricePath[pricePath.length - 1]`,
`yieldValue = calculateCompoundInterest(principal, apy, days) - principal`,
`priceReturn = principal * (endPrice - 1)`,
`totalValue = principal + yieldValue + priceReturn`,
`roi = (totalValue - principal)/principal * 100`. -/
def mcTrial (prims : MathPrims) (principal apy : ℚ) (days : ℤ)
    (rand : ℕ → ℚ) : SimulationTrial :=
  let pricePath := simulatePricePath prims 1 days stableScen rand
  let endPrice := pricePath.getD (pricePath.length - 1) 0
  let yieldValue := calculateCompoundInterest prims principal apy days 365 - principal
  let priceReturn := principal * (endPrice - 1)
  let totalValue := principal + yieldValue + priceReturn
  ⟨totalValue, yieldValue, priceReturn, (totalValue - principal) / principal * 100⟩

/-- The comparator `(a, b) => a.totalValue - b.totalValue` used to sort the
trial results, as an ordering relation. -/
def byTotalValue : SimulationTrial → SimulationTrial → Prop :=
  fun a b => a.totalValue ≤ b.totalValue

instance : DecidableRel byTotalValue :=
  fun a b => inferInstanceAs (Decidable (a.totalValue ≤ b.totalValue))

instance : IsTotal SimulationTrial byTotalValue :=
  ⟨fun a b => le_total a.totalValue b.totalValue⟩

instance : IsTrans SimulationTrial byTotalValue :=
  ⟨fun _ _ _ hab hbc => le_trans hab hbc⟩

/-- `Math.floor(iterations * rank)`, the nearest-rank percentile index. -/
def pctIdx (iterations : ℕ) (rank : ℚ) : ℕ :=
  (⌊(iterations : ℚ) * rank⌋).toNat

/-- The record returned by `runMonteCarlo`. -/
structure SimulationSummary where
  worst : SimulationTrial
  p25 : SimulationTrial
  median : SimulationTrial
  p75 : SimulationTrial
  best : SimulationTrial

/-- `runMonteCarlo(principal, apy, days, iterations)` from
`src/yield/jlp-simulator.js`: build `iterations` trial records (trial `i`
consuming the random stream `rand i`), sort ascending by `totalValue`, and
pick the records at `Math.floor(iterations * r)` for
`r ∈ {0.05, 0.25, 0.5, 0.75, 0.95}`. -/
def runMonteCarlo (prims : MathPrims) (principal apy : ℚ) (days : ℤ)
    (iterations : ℕ) (rand : ℕ → ℕ → ℚ) : SimulationSummary :=
  let results := (List.range iterations).map
    (fun i => mcTrial prims principal apy days (rand i))
  let sorted := results.insertionSort byTotalValue
  ⟨sorted.getD (pctIdx iterations (5 / 100)) defaultTrial,
   sorted.getD (pctIdx iterations (25 / 100)) defaultTrial,
   sorted.getD (pctIdx iterations (50 / 100)) defaultTrial,
   sorted.getD (pctIdx iterations (75 / 100)) defaultTrial,
   sorted.getD (pctIdx iterations (95 / 100)) defaultTrial⟩

/-! ### Trade ledger (`src/unnamed/part_003`, a trade-journal script) -/

/-- The caller-supplied trade record passed to `addTrade`.  Optional JS fields
are `Option`s; `entryPrice`/`exitPrice` participate in a JS truthiness test,
under which `undefined`, `null` and `0` are all falsy. -/
structure TradeInput where
  symbol : String
  side : String
  entryPrice : Option ℚ
  exitPrice : Option ℚ
  size : ℚ
  fees : Option ℚ
  status : String
  tags : Option (List String)
deriving DecidableEq

/-- A stored trade, as built by `addTrade`.  `timestamp` models the instant
recorded by `new Date().toISOString()` (same clock value as `Date.now()`). -/
structure Trade where
  id : String
  timestamp : ℤ
  symbol : String
  side : String
  entryPrice : Option ℚ
  exitPrice : Option ℚ
  size : ℚ
  fees : Option ℚ
  status : String
  tags : Option (List String)
  pnl : Option ℚ
deriving DecidableEq

/-- JS truthiness of an optional number: `undefined`/`null` and `0` are falsy. -/
def truthy : Option ℚ → Bool
  | none => false
  | some v => decide (v ≠ 0)

/-- `addTrade(trade)` from the trade-journal script, with the clock reading
`Date.now()` made an explicit argument `now`:
`id = 'trade-' + Date.now()`, `timestamp = now`, and
`pnl = trade.exitPrice && trade.entryPrice ?`
`(trade.side === 'long' ? 1 : -1) * (trade.exitPrice - trade.entryPrice) * trade.size : null`. -/
def addTrade (now : ℤ) (trade : TradeInput) : Trade :=
  { id := "trade-" ++ toString now
    timestamp := now
    symbol := trade.symbol
    side := trade.side
    entryPrice := trade.entryPrice
    exitPrice := trade.exitPrice
    size := trade.size
    fees := trade.fees
    status := trade.status
    tags := trade.tags
    pnl :=
      if truthy trade.exitPrice && truthy trade.entryPrice then
        some ((if trade.side == "long" then 1 else -1) *
          (trade.exitPrice.getD 0 - trade.entryPrice.getD 0) * trade.size)
      else none }

/-- The optional filters of `calculateAnalytics`. -/
structure Filters where
  symbol : Option String
  startDate : Option ℤ
  endDate : Option ℤ
  side : Option String
  tags : Option (List String)

/-- The default (absent) filter set. -/
def noFilters : Filters := ⟨none, none, none, none, none⟩

/-- The filter prelude of `calculateAnalytics`: each present filter narrows
`filteredTrades` in turn (symbol equality, `timestamp ≥ startDate`,
`timestamp ≤ endDate`, side equality, and non-empty tag intersection, where
a trade without a `tags` field matches no tag). -/
def applyFilters (filters : Filters) (trades : List Trade) : List Trade :=
  let f1 := match filters.symbol with
    | some s => trades.filter (fun t => t.symbol == s)
    | none => trades
  let f2 := match filters.startDate with
    | some d => f1.filter (fun t => decide (d ≤ t.timestamp))
    | none => f1
  let f3 := match filters.endDate with
    | some d => f2.filter (fun t => decide (t.timestamp ≤ d))
    | none => f2
  let f4 := match filters.side with
    | some s => f3.filter (fun t => t.side == s)
    | none => f3
  match filters.tags with
  | some tgs =>
      if 0 < tgs.length then
        f4.filter (fun t => tgs.any (fun tag => (t.tags.getD []).contains tag))
      else f4
  | none => f4

/-- `t.pnl` read as a number; on the closed-trade subsets where it is used the
field is always present, so the default is never observed. -/
def pnlv (t : Trade) : ℚ := t.pnl.getD 0

/-- `closedTrades = filteredTrades.filter(t => t.status === 'closed' && t.pnl !== null)`. -/
def closedOf (ts : List Trade) : List Trade :=
  ts.filter (fun t => t.status == "closed" && t.pnl.isSome)

/-- `winningTrades = closedTrades.filter(t => t.pnl > 0)`. -/
def winnersOf (ts : List Trade) : List Trade :=
  (closedOf ts).filter (fun t => decide (0 < pnlv t))

/-- `losingTrades = closedTrades.filter(t => t.pnl < 0)`. -/
def losersOf (ts : List Trade) : List Trade :=
  (closedOf ts).filter (fun t => decide (pnlv t < 0))

/-- `reduce((sum, t) => sum + t.pnl, 0)`. -/
def sumPnl (ts : List Trade) : ℚ := ts.foldl (fun s t => s + pnlv t) 0

/-- `reduce((sum, t) => sum + (t.fees || 0), 0)`. -/
def sumFees (ts : List Trade) : ℚ := ts.foldl (fun s t => s + t.fees.getD 0) 0

/-- One point of the equity curve. -/
structure EquityPoint where
  date : ℤ
  equity : ℚ
  drawdown : ℚ
  drawdownPercent : ℚ
deriving DecidableEq

/-- The mutable state of the equity-curve loop of `calculateAnalytics`. -/
structure ReplayState where
  equity : ℚ
  peakEquity : ℚ
  maxDrawdown : ℚ
  maxDrawdownPercent : ℚ
  equityCurve : List EquityPoint

/-- One iteration of the equity-curve loop:
`equity += trade.pnl; peakEquity = max(peakEquity, equity);`
`drawdown = peakEquity - equity;`
`drawdownPercent = peakEquity > 0 ? drawdown/peakEquity * 100 : 0;`
`maxDrawdown = max(maxDrawdown, drawdown);`
`maxDrawdownPercent = max(maxDrawdownPercent, drawdownPercent);` push point. -/
def replayStep (st : ReplayState) (t : Trade) : ReplayState :=
  let equity := st.equity + pnlv t
  let peakEquity := max st.peakEquity equity
  let drawdown := peakEquity - equity
  let drawdownPercent := if 0 < peakEquity then drawdown / peakEquity * 100 else 0
  { equity := equity
    peakEquity := peakEquity
    maxDrawdown := max st.maxDrawdown drawdown
    maxDrawdownPercent := max st.maxDrawdownPercent drawdownPercent
    equityCurve := st.equityCurve ++
      [⟨t.timestamp, equity, drawdown, drawdownPercent⟩] }

/-- `closedTrades.sort((a, b) => new Date(a.timestamp) - new Date(b.timestamp))`:
sort ascending by timestamp. -/
def sortByTimestamp (ts : List Trade) : List Trade :=
  ts.insertionSort (fun a b => a.timestamp ≤ b.timestamp)

/-- The `summary` object of the analytics result. -/
structure Summary where
  totalTrades : ℕ
  closedTrades : ℕ
  openTrades : ℕ
  winRate : ℚ
  totalPnL : ℚ
  avgWin : ℚ
  avgLoss : ℚ
  profitFactor : ℚ
  maxDrawdown : ℚ
  maxDrawdownPercent : ℚ
  currentEquity : ℚ
  peakEquity : ℚ

/-- The `bias` object of the analytics result. -/
structure BiasStats where
  longCount : ℕ
  shortCount : ℕ
  longPercent : ℚ
  shortPercent : ℚ
  longPnL : ℚ
  shortPnL : ℚ

/-- The `fees` object of the analytics result. -/
structure FeeStats where
  totalFees : ℚ
  avgFeePerTrade : ℚ
  feePercentOfPnL : ℚ

/-- The full object returned by `calculateAnalytics`. -/
structure Analytics where
  summary : Summary
  bias : BiasStats
  fees : FeeStats
  equityCurve : List EquityPoint
  trades : List Trade

/-- The body of `calculateAnalytics` after the filter prelude, computed over
`filteredTrades`.  Counts, sums and means are taken over the closed subset
(which the in-place sort permutes without changing them); the equity loop runs
over the closed subset sorted ascending by timestamp from the zero state. -/
def analyticsOfFiltered (filteredTrades : List Trade) : Analytics :=
  let closedTrades := closedOf filteredTrades
  let winningTrades := winnersOf filteredTrades
  let losingTrades := losersOf filteredTrades
  let st := (sortByTimestamp closedTrades).foldl replayStep ⟨0, 0, 0, 0, []⟩
  let longTrades := closedTrades.filter (fun t => t.side == "long")
  let shortTrades := closedTrades.filter (fun t => t.side == "short")
  let totalTrades := longTrades.length + shortTrades.length
  let totalFees := sumFees closedTrades
  { summary :=
    { totalTrades := filteredTrades.length
      closedTrades := closedTrades.length
      openTrades := (filteredTrades.filter (fun t => t.status == "open")).length
      winRate := if 0 < closedTrades.length then
          ((winningTrades.length : ℚ) / (closedTrades.length : ℚ)) * 100 else 0
      totalPnL := sumPnl closedTrades
      avgWin := if 0 < winningTrades.length then
          sumPnl winningTrades / (winningTrades.length : ℚ) else 0
      avgLoss := if 0 < losingTrades.length then
          sumPnl losingTrades / (losingTrades.length : ℚ) else 0
      profitFactor := if 0 < losingTrades.length ∧ 0 < |sumPnl losingTrades| then
          sumPnl winningTrades / |sumPnl losingTrades| else 0
      maxDrawdown := st.maxDrawdown
      maxDrawdownPercent := st.maxDrawdownPercent
      currentEquity := st.equity
      peakEquity := st.peakEquity }
    bias :=
    { longCount := longTrades.length
      shortCount := shortTrades.length
      longPercent := if 0 < totalTrades then
          ((longTrades.length : ℚ) / (totalTrades : ℚ)) * 100 else 0
      shortPercent := if 0 < totalTrades then
          ((shortTrades.length : ℚ) / (totalTrades : ℚ)) * 100 else 0
      longPnL := sumPnl longTrades
      shortPnL := sumPnl shortTrades }
    fees :=
    { totalFees := totalFees
      avgFeePerTrade := if 0 < closedTrades.length then
          totalFees / (closedTrades.length : ℚ) else 0
      feePercentOfPnL := if st.equity ≠ 0 then
          totalFees / |st.equity| * 100 else 0 }
    equityCurve := st.equityCurve
    trades := filteredTrades }

/-- `calculateAnalytics(trades, filters = {})` from the trade-journal script. -/
def calculateAnalytics (trades : List Trade) (filters : Filters) : Analytics :=
  analyticsOfFiltered (applyFilters filters trades)

/-! ### Position registry (`src/yield/position-tracker.js`) -/

/-- A tracked yield position (the fields `showPortfolio` reads). -/
structure Position where
  token : String
  balance : ℚ
  value : ℚ
  apy : ℚ
deriving DecidableEq

/-- The portfolio totals printed by `showPortfolio`; `blendedApy` is `none`
when the `totalValue > 0` branch is not taken. -/
structure PortfolioSummary where
  totalValue : ℚ
  totalDailyYield : ℚ
  blendedApy : Option ℚ
deriving DecidableEq

/-- The aggregation loop of `showPortfolio` from
`src/yield/position-tracker.js`: per position
`dailyYield = pos.value * (pos.apy / 100) / 365`, accumulate `totalValue`
and `totalDailyYield`, and when `totalValue > 0` report
`blendedApy = (totalDailyYield * 365 / totalValue) * 100`. -/
def showPortfolio (positions : List Position) : PortfolioSummary :=
  let totalValue := positions.foldl (fun s p => s + p.value) 0
  let totalDailyYield := positions.foldl (fun s p => s + p.value * (p.apy / 100) / 365) 0
  { totalValue := totalValue
    totalDailyYield := totalDailyYield
    blendedApy := if 0 < totalValue then
        some (totalDailyYield * 365 / totalValue * 100) else none }

/-! ### Helper lemmas -/

/-- Modelled from the spec (§4.4): replay the closed trades in ascending
timestamp order maintaining running equity and running peak (max-so-far
equity); at each step `drawdown = peak - equity` and
`drawdownPercent = drawdown / peak * 100` (`0` if `peak ≤ 0`), emitting one
equity point per trade. -/
def specReplay : ℚ → ℚ → List Trade → List EquityPoint
  | _, _, [] => []
  | equity, peak, t :: ts =>
    let e := equity + pnlv t
    let p := max peak e
    let dd := p - e
    let ddp := if 0 < p then dd / p * 100 else 0
    ⟨t.timestamp, e, dd, ddp⟩ :: specReplay e p ts

theorem foldl_add_map {α : Type} (w : α → ℚ) :
    ∀ (l : List α) (a : ℚ), l.foldl (fun s x => s + w x) a = a + (l.map w).sum := by
  intro l
  induction l with
  | nil => intro a; simp
  | cons x xs ih =>
      intro a
      simp only [List.foldl_cons, List.map_cons, List.sum_cons, ih]
      ring

theorem sumPnl_eq_sum_map (ts : List Trade) : sumPnl ts = (ts.map pnlv).sum := by
  simpa using foldl_add_map pnlv ts 0

theorem pathFrom_length (dd dv : ℚ) (rand : ℕ → ℚ) :
    ∀ (n : ℕ) (price : ℚ) (i : ℕ), (pathFrom dd dv rand price i n).length = n := by
  intro n
  induction n with
  | zero => intro price i; rfl
  | succ m ih => intro price i; simp [pathFrom, ih]

theorem foldl_replay_equity :
    ∀ (ts : List Trade) (st : ReplayState),
      (ts.foldl replayStep st).equity = st.equity + (ts.map pnlv).sum := by
  intro ts
  induction ts with
  | nil => intro st; simp
  | cons t ts ih =>
      intro st
      simp only [List.foldl_cons, List.map_cons, List.sum_cons, ih, replayStep]
      ring

theorem foldl_replay_curve :
    ∀ (ts : List Trade) (st : ReplayState),
      (ts.foldl replayStep st).equityCurve =
        st.equityCurve ++ specReplay st.equity st.peakEquity ts := by
  intro ts
  induction ts with
  | nil => intro st; simp [specReplay]
  | cons t ts ih =>
      intro st
      simp only [List.foldl_cons, ih, replayStep, specReplay]
      simp

theorem foldl_replay_maxDrawdown :
    ∀ (ts : List Trade) (st : ReplayState),
      (ts.foldl replayStep st).maxDrawdown =
        ((specReplay st.equity st.peakEquity ts).map EquityPoint.drawdown).foldl
          max st.maxDrawdown := by
  intro ts
  induction ts with
  | nil => intro st; simp [specReplay]
  | cons t ts ih =>
      intro st
      simp only [List.foldl_cons, ih, replayStep, specReplay, List.map_cons]

theorem foldl_replay_maxDrawdownPercent :
    ∀ (ts : List Trade) (st : ReplayState),
      (ts.foldl replayStep st).maxDrawdownPercent =
        ((specReplay st.equity st.peakEquity ts).map EquityPoint.drawdownPercent).foldl
          max st.maxDrawdownPercent := by
  intro ts
  induction ts with
  | nil => intro st; simp [specReplay]
  | cons t ts ih =>
      intro st
      simp only [List.foldl_cons, ih, replayStep, specReplay, List.map_cons]

theorem specReplay_getLast_equity :
    ∀ (ts : List Trade) (e p : ℚ) (pt : EquityPoint),
      (specReplay e p ts).getLast? = some pt → pt.equity = e + (ts.map pnlv).sum := by
  intro ts
  induction ts with
  | nil => intro e p pt h; simp [specReplay] at h
  | cons t ts ih =>
      intro e p pt h
      cases ts with
      | nil =>
          simp [specReplay] at h
          subst h
          simp
      | cons t' ts' =>
          rw [specReplay, specReplay, List.getLast?_cons_cons] at h
          have harg :
              (specReplay (e + pnlv t) (max p (e + pnlv t)) (t' :: ts')).getLast? =
                some pt := by
            rw [specReplay]; exact h
          rw [ih (e + pnlv t) (max p (e + pnlv t)) pt harg]
          simp only [List.map_cons, List.sum_cons]
          ring

theorem applyFilters_nil (fl : Filters) : applyFilters fl [] = [] := by
  obtain ⟨s, sd, ed, si, tg⟩ := fl
  cases s <;> cases sd <;> cases ed <;> cases si <;> cases tg <;>
    simp [applyFilters]

theorem sum_nonpos_of_forall_neg :
    ∀ l : List Trade, (∀ t ∈ l, pnlv t < 0) → (l.map pnlv).sum ≤ 0 := by
  intro l
  induction l with
  | nil => intro _; simp
  | cons t ts ih =>
      intro h
      simp only [List.map_cons, List.sum_cons]
      have h1 : pnlv t < 0 := h t (List.mem_cons_self t ts)
      have h2 : (ts.map pnlv).sum ≤ 0 := ih (fun x hx => h x (List.mem_cons_of_mem t hx))
      linarith

theorem sum_neg_of_forall_neg (l : List Trade) (h : ∀ t ∈ l, pnlv t < 0)
    (hne : l ≠ []) : (l.map pnlv).sum < 0 := by
  cases l with
  | nil => exact absurd rfl hne
  | cons t ts =>
      simp only [List.map_cons, List.sum_cons]
      have h1 : pnlv t < 0 := h t (List.mem_cons_self t ts)
      have h2 : (ts.map pnlv).sum ≤ 0 :=
        sum_nonpos_of_forall_neg ts (fun x hx => h x (List.mem_cons_of_mem t hx))
      linarith

/-! ### Claim theorems -/

/-- A first concrete trade input (a long SOL-PERP trade). -/
def tinA : TradeInput :=
  ⟨"SOL-PERP", "long", some 10, some 12, 1, none, "closed", none⟩

/-- A second, different concrete trade input (a short ETH-PERP trade). -/
def tinB : TradeInput :=
  ⟨"ETH-PERP", "short", some 5, some 4, 2, none, "closed", none⟩

/-- Claim C1 (code bug): `addTrade` derives the id solely from the millisecond
clock (`'trade-' + Date.now()`), so two calls issued in the same millisecond
(equal `Date.now()` readings) assign the *same* id to two different trades,
contradicting the required id uniqueness under rapid successive calls. -/
theorem addTrade_same_millis_id_collision :
    tinA ≠ tinB ∧
    (addTrade 1714000000000 tinA).id = (addTrade 1714000000000 tinB).id ∧
    (addTrade 1714000000000 tinA).id = "trade-1714000000000" := by
  refine ⟨by decide, rfl, rfl⟩

/-- An open trade input carrying both an entry and an exit price. -/
def openTradeIn : TradeInput :=
  ⟨"SOL-PERP", "long", some 1, some 2, 3, none, "open", none⟩

/-- A closed trade input with no exit price. -/
def closedNoExitIn : TradeInput :=
  ⟨"SOL-PERP", "long", some 1, none, 3, none, "closed", none⟩

/-- Claim C2 counterexample: a stored trade with status `open` but both prices
present has a *defined* pnl (`some 3`), and a stored trade with status
`closed` but no exit price has pnl `null` — so "pnl is defined iff
status = closed" fails in both directions. -/
theorem addTrade_pnl_status_counterexample :
    (addTrade 0 openTradeIn).status = "open" ∧
    (addTrade 0 openTradeIn).pnl = some 3 ∧
    (addTrade 0 closedNoExitIn).status = "closed" ∧
    (addTrade 0 closedNoExitIn).pnl = none := by
  refine ⟨rfl, ?_, rfl, ?_⟩
  · norm_num [addTrade, openTradeIn, truthy]
  · norm_num [addTrade, closedNoExitIn, truthy]

/-- Claim C2 (amended): a trade stored by `addTrade` has a defined pnl iff
both `exitPrice` and `entryPrice` are truthy (present and nonzero) — the
status is not consulted — and when both prices are present and nonzero,
`pnl = (side == 'long' ? 1 : -1) * (exitPrice - entryPrice) * size`. -/
theorem addTrade_pnl_iff_truthy_prices (now : ℤ) (tin : TradeInput) :
    ((addTrade now tin).pnl.isSome =
      (truthy tin.exitPrice && truthy tin.entryPrice)) ∧
    (∀ e x : ℚ, tin.entryPrice = some e → tin.exitPrice = some x →
      e ≠ 0 → x ≠ 0 →
      (addTrade now tin).pnl =
        some ((if tin.side == "long" then 1 else -1) * (x - e) * tin.size)) := by
  constructor
  · cases hc : truthy tin.exitPrice && truthy tin.entryPrice <;>
      simp [addTrade, hc]
  · intro e x he hx he0 hx0
    simp [addTrade, he, hx, truthy, he0, hx0]

/-- A concrete open trade input with nonzero prices, for the C2 witness. -/
def tinW : TradeInput := ⟨"SOL", "long", some 2, some 4, 7, none, "open", none⟩

theorem addTrade_pnl_iff_truthy_prices_witness :
    (addTrade 5 tinW).pnl =
      some ((if tinW.side == "long" then 1 else -1) * ((4 : ℚ) - 2) * tinW.size) :=
  (addTrade_pnl_iff_truthy_prices 5 tinW).2 2 4 rfl rfl
    (by norm_num) (by norm_num)

/-- Claim C5: `computeAnalytics` on the empty trade list (any filters) returns
neutral zero values and an empty equity curve: winRate, totalPnL, maxDrawdown,
avgWin, avgLoss, profitFactor, all fee statistics and the bias counts are 0,
and `equityCurve = []`. -/
theorem calculateAnalytics_empty (fl : Filters) :
    (calculateAnalytics [] fl).summary.winRate = 0 ∧
    (calculateAnalytics [] fl).summary.totalPnL = 0 ∧
    (calculateAnalytics [] fl).summary.maxDrawdown = 0 ∧
    (calculateAnalytics [] fl).equityCurve = [] ∧
    (calculateAnalytics [] fl).summary.avgWin = 0 ∧
    (calculateAnalytics [] fl).summary.avgLoss = 0 ∧
    (calculateAnalytics [] fl).summary.profitFactor = 0 ∧
    (calculateAnalytics [] fl).fees.totalFees = 0 ∧
    (calculateAnalytics [] fl).fees.avgFeePerTrade = 0 ∧
    (calculateAnalytics [] fl).fees.feePercentOfPnL = 0 ∧
    (calculateAnalytics [] fl).bias.longCount = 0 ∧
    (calculateAnalytics [] fl).bias.shortCount = 0 := by
  have h : calculateAnalytics [] fl = analyticsOfFiltered [] := by
    rw [calculateAnalytics, applyFilters_nil]
  rw [h]
  exact ⟨rfl, rfl, rfl, rfl, rfl, rfl, rfl, rfl, rfl, rfl, rfl, rfl⟩

theorem map_sum_div {α : Type} (w : α → ℚ) (c : ℚ) (l : List α) :
    (l.map (fun x => w x / c)).sum = (l.map w).sum / c := by
  induction l with
  | nil => simp
  | cons x xs ih => simp [ih, add_div]

/-- The worked two-position portfolio of the spec's §8 example. -/
def portfolioEx : List Position :=
  [⟨"USDC", 100, 100, 10⟩, ⟨"JLP", 300, 300, 20⟩]

/-- Claim C7: `showPortfolio` totals are `totalValue = Σ value` and
`totalDailyYield = Σ value·apy/100/365`; exactly when `totalValue > 0` the
blended APY is reported, and it equals the value-weighted average
`Σ(value·apy)/Σvalue`; on `[{value:100, apy:10}, {value:300, apy:20}]` it is
`17.5` (not the arithmetic mean `15`). -/
theorem showPortfolio_blendedApy (ps : List Position) :
    (showPortfolio ps).totalValue = (ps.map Position.value).sum ∧
    (showPortfolio ps).totalDailyYield =
      (ps.map (fun p => p.value * p.apy)).sum / 36500 ∧
    (0 < (ps.map Position.value).sum →
      (showPortfolio ps).blendedApy =
        some ((ps.map (fun p => p.value * p.apy)).sum /
          (ps.map Position.value).sum)) ∧
    ((ps.map Position.value).sum ≤ 0 → (showPortfolio ps).blendedApy = none) ∧
    (showPortfolio portfolioEx).blendedApy = some (35 / 2) := by
  have hv : ps.foldl (fun s p => s + p.value) 0 = (ps.map Position.value).sum := by
    simpa using foldl_add_map Position.value ps 0
  have hd : ps.foldl (fun s p => s + p.value * (p.apy / 100) / 365) 0 =
      (ps.map (fun p => p.value * p.apy)).sum / 36500 := by
    have h1 := foldl_add_map (fun p : Position => p.value * (p.apy / 100) / 365) ps 0
    have h2 : (fun p : Position => p.value * (p.apy / 100) / 365) =
        fun p : Position => p.value * p.apy / 36500 := by
      funext p; ring
    rw [h1, h2, map_sum_div (fun p : Position => p.value * p.apy) 36500 ps]
    ring
  refine ⟨?_, ?_, ?_, ?_, ?_⟩
  · simpa [showPortfolio] using hv
  · simpa [showPortfolio] using hd
  · intro hpos
    have hne : (ps.map Position.value).sum ≠ 0 := ne_of_gt hpos
    simp only [showPortfolio, hv, hd]
    rw [if_pos hpos]
    congr 1
    field_simp
    ring
  · intro hle
    simp only [showPortfolio, hv, hd]
    rw [if_neg (not_lt.mpr hle)]
  · norm_num [showPortfolio, portfolioEx, List.foldl]

theorem showPortfolio_blendedApy_witness :
    (showPortfolio portfolioEx).blendedApy =
      some ((portfolioEx.map (fun p => p.value * p.apy)).sum /
        (portfolioEx.map Position.value).sum) :=
  (showPortfolio_blendedApy portfolioEx).2.2.1 (by norm_num [portfolioEx])

/-- Claim C8: `simulatePath(p, days, drift, volatility)` returns a sequence of
length exactly `days + 1` whose first element is `p`, for every `days ≥ 0`;
for `days = 0` it returns exactly `[p]` whatever the scenario parameters. -/
theorem simulatePricePath_length_head (prims : MathPrims) (sp : ℚ) (days : ℤ)
    (scen : ScenParams) (rand : ℕ → ℚ) (h : 0 ≤ days) :
    ((simulatePricePath prims sp days scen rand).length : ℤ) = days + 1 ∧
    (simulatePricePath prims sp days scen rand).head? = some sp ∧
    (days = 0 → simulatePricePath prims sp days scen rand = [sp]) := by
  refine ⟨?_, rfl, ?_⟩
  · simp only [simulatePricePath, List.length_cons, pathFrom_length]
    omega
  · intro h0
    subst h0
    rfl

/-- A trivial instantiation of the `Math.pow`/`Math.sqrt` abstraction. -/
def constPrims : MathPrims := ⟨fun _ _ => 1, fun _ => 1⟩

/-- A constant random stream. -/
def randZero : ℕ → ℚ := fun _ => 0

theorem simulatePricePath_length_head_witness :
    ((simulatePricePath constPrims 7 3 stableScen randZero).length : ℤ) = 3 + 1 ∧
    (simulatePricePath constPrims 7 3 stableScen randZero).head? = some 7 ∧
    ((3 : ℤ) = 0 → simulatePricePath constPrims 7 3 stableScen randZero = [7]) :=
  simulatePricePath_length_head constPrims 7 3 stableScen randZero (by norm_num)

/-- Claim C9: the numeric kernel is total on malformed input (it is modelled
by total functions on `ℚ`); in particular, under the IEEE-valid identities
`pow(1, e) = 1` and `pow(b, 0) = 1` of the `Math.pow` primitive,
`project(P, 0, D) = P` for every `D`, `project(P, A, 0) = P` for every `A`
(at the default compounding frequency 365), and `simulatePath` with negative
`days` runs no step and returns `[startPrice]`. -/
theorem numericKernel_total_identities (prims : MathPrims)
    (hpow1 : ∀ e : ℚ, prims.pow 1 e = 1)
    (hpow0 : ∀ b : ℚ, prims.pow b 0 = 1) :
    (∀ P D : ℚ, calculateCompoundInterest prims P 0 D 365 = P) ∧
    (∀ P A : ℚ, calculateCompoundInterest prims P A 0 365 = P) ∧
    (∀ (sp : ℚ) (d : ℤ) (scen : ScenParams) (rand : ℕ → ℚ),
      d < 0 → simulatePricePath prims sp d scen rand = [sp]) := by
  refine ⟨?_, ?_, ?_⟩
  · intro P D
    have h1 : (1 : ℚ) + 0 / 100 / 365 = 1 := by norm_num
    simp only [calculateCompoundInterest, h1, hpow1, mul_one]
  · intro P A
    have h0 : (0 : ℚ) / (365 / 365) = 0 := by norm_num
    simp only [calculateCompoundInterest, h0, hpow0, mul_one]
  · intro sp d scen rand hd
    have ht : d.toNat = 0 := Int.toNat_of_nonpos hd.le
    simp [simulatePricePath, ht, pathFrom]

theorem numericKernel_total_identities_witness :
    (∀ P D : ℚ, calculateCompoundInterest constPrims P 0 D 365 = P) ∧
    (∀ P A : ℚ, calculateCompoundInterest constPrims P A 0 365 = P) ∧
    (∀ (sp : ℚ) (d : ℤ) (scen : ScenParams) (rand : ℕ → ℚ),
      d < 0 → simulatePricePath constPrims sp d scen rand = [sp]) :=
  numericKernel_total_identities constPrims (fun _ => rfl) (fun _ => rfl)

/-- Example closed trade with pnl +100 at timestamp 1. -/
def trEx1 : Trade :=
  ⟨"trade-1", 1, "SOL-PERP", "long", some 100, some 200, 1, none, "closed", none, some 100⟩

/-- Example closed trade with pnl −50 at timestamp 2. -/
def trEx2 : Trade :=
  ⟨"trade-2", 2, "SOL-PERP", "long", some 200, some 150, 1, none, "closed", none, some (-50)⟩

/-- Example closed trade with pnl +30 at timestamp 3. -/
def trEx3 : Trade :=
  ⟨"trade-3", 3, "SOL-PERP", "long", some 150, some 180, 1, none, "closed", none, some 30⟩

/-- The spec's §8 example ledger (chronological pnl `[+100, −50, +30]`),
listed out of timestamp order so the replay's sort is exercised. -/
def exTrades : List Trade := [trEx2, trEx1, trEx3]

/-- Claim C3: `computeAnalytics` replays the closed trades in ascending
timestamp order: the equity curve equals the spec's replay (running
equity/peak, `drawdown = peak − equity`, `drawdownPercent = drawdown/peak·100`
or 0 when the peak is not positive), and `maxDrawdown`/`maxDrawdownPercent`
are the running maxima over that replay; on the chronological-pnl example
`[+100, −50, +30]` the equity values are `[100, 50, 80]`, `maxDrawdown = 50`
and `maxDrawdownPercent = 50`. -/
theorem calculateAnalytics_equityCurve_replay (trades : List Trade) (fl : Filters) :
    (calculateAnalytics trades fl).equityCurve =
      specReplay 0 0 (sortByTimestamp (closedOf (applyFilters fl trades))) ∧
    (calculateAnalytics trades fl).summary.maxDrawdown =
      ((specReplay 0 0 (sortByTimestamp (closedOf (applyFilters fl trades)))).map
        EquityPoint.drawdown).foldl max 0 ∧
    (calculateAnalytics trades fl).summary.maxDrawdownPercent =
      ((specReplay 0 0 (sortByTimestamp (closedOf (applyFilters fl trades)))).map
        EquityPoint.drawdownPercent).foldl max 0 ∧
    (calculateAnalytics exTrades noFilters).equityCurve.map EquityPoint.equity =
      [100, 50, 80] ∧
    (calculateAnalytics exTrades noFilters).summary.maxDrawdown = 50 ∧
    (calculateAnalytics exTrades noFilters).summary.maxDrawdownPercent = 50 := by
  have h1 : applyFilters noFilters exTrades = exTrades := rfl
  have h2 : sortByTimestamp (closedOf exTrades) = [trEx1, trEx2, trEx3] := by decide
  refine ⟨?_, ?_, ?_, ?_, ?_, ?_⟩
  · simp only [calculateAnalytics, analyticsOfFiltered]
    rw [foldl_replay_curve]
    simp
  · simp only [calculateAnalytics, analyticsOfFiltered]
    rw [foldl_replay_maxDrawdown]
  · simp only [calculateAnalytics, analyticsOfFiltered]
    rw [foldl_replay_maxDrawdownPercent]
  all_goals
    norm_num [calculateAnalytics, analyticsOfFiltered, h1, h2, replayStep, pnlv,
      trEx1, trEx2, trEx3, max_def]

/-- Claim C10: the final equity of the chronological replay equals the sum of
pnl over the filtered closed trades — `summary.currentEquity = summary.totalPnL`
— and when the equity curve is non-empty its last point's equity is also
`summary.totalPnL`. -/
theorem currentEquity_eq_totalPnL (trades : List Trade) (fl : Filters) :
    (calculateAnalytics trades fl).summary.currentEquity =
      (calculateAnalytics trades fl).summary.totalPnL ∧
    (∀ pt : EquityPoint,
      (calculateAnalytics trades fl).equityCurve.getLast? = some pt →
      pt.equity = (calculateAnalytics trades fl).summary.totalPnL) := by
  have hperm :
      ((sortByTimestamp (closedOf (applyFilters fl trades))).map pnlv).sum =
        ((closedOf (applyFilters fl trades)).map pnlv).sum :=
    ((List.perm_insertionSort _ (closedOf (applyFilters fl trades))).map pnlv).sum_eq
  have htot : (calculateAnalytics trades fl).summary.totalPnL =
      ((closedOf (applyFilters fl trades)).map pnlv).sum := by
    simp only [calculateAnalytics, analyticsOfFiltered]
    exact sumPnl_eq_sum_map _
  constructor
  · rw [htot]
    simp only [calculateAnalytics, analyticsOfFiltered]
    rw [foldl_replay_equity]
    simpa [sortByTimestamp] using hperm
  · intro pt hpt
    rw [htot]
    have hcurve : (calculateAnalytics trades fl).equityCurve =
        specReplay 0 0 (sortByTimestamp (closedOf (applyFilters fl trades))) := by
      simp only [calculateAnalytics, analyticsOfFiltered]
      rw [foldl_replay_curve]
      simp
    rw [hcurve] at hpt
    have := specReplay_getLast_equity _ 0 0 pt hpt
    rw [this, zero_add]
    exact hperm

theorem currentEquity_eq_totalPnL_witness :
    (⟨3, 80, 20, 20⟩ : EquityPoint).equity =
      (calculateAnalytics exTrades noFilters).summary.totalPnL := by
  have h2 : sortByTimestamp (closedOf exTrades) = [trEx1, trEx2, trEx3] := by decide
  have h1 : (calculateAnalytics exTrades noFilters).equityCurve =
      specReplay 0 0 (sortByTimestamp (closedOf (applyFilters noFilters exTrades))) := by
    simp only [calculateAnalytics, analyticsOfFiltered]
    rw [foldl_replay_curve]
    simp
  refine (currentEquity_eq_totalPnL exTrades noFilters).2 ⟨3, 80, 20, 20⟩ ?_
  rw [h1, show applyFilters noFilters exTrades = exTrades from rfl, h2]
  norm_num [specReplay, pnlv, trEx1, trEx2, trEx3, max_def,
    List.getLast?_cons_cons, List.getLast?_singleton]

/-- Claim C6: `profitFactor` is `0` (not infinity) whenever the filtered
closed set has no losing trade, and equals
`Σ(pnl > 0) / |Σ(pnl < 0)|` whenever a losing trade exists. -/
theorem profitFactor_zero_or_ratio (trades : List Trade) (fl : Filters) :
    (losersOf (applyFilters fl trades) = [] →
      (calculateAnalytics trades fl).summary.profitFactor = 0) ∧
    (losersOf (applyFilters fl trades) ≠ [] →
      (calculateAnalytics trades fl).summary.profitFactor =
        sumPnl (winnersOf (applyFilters fl trades)) /
          |sumPnl (losersOf (applyFilters fl trades))|) := by
  constructor
  · intro h0
    simp only [calculateAnalytics, analyticsOfFiltered]
    rw [if_neg]
    intro hc
    rw [h0] at hc
    simp at hc
  · intro hne
    have hall : ∀ t ∈ losersOf (applyFilters fl trades), pnlv t < 0 := by
      intro t ht
      have := (List.mem_filter.mp ht).2
      simpa using this
    have hsum : sumPnl (losersOf (applyFilters fl trades)) < 0 := by
      rw [sumPnl_eq_sum_map]
      exact sum_neg_of_forall_neg _ hall hne
    have habs : 0 < |sumPnl (losersOf (applyFilters fl trades))| :=
      abs_pos.mpr (ne_of_lt hsum)
    have hlen : 0 < (losersOf (applyFilters fl trades)).length :=
      List.length_pos.mpr hne
    simp only [calculateAnalytics, analyticsOfFiltered]
    rw [if_pos ⟨hlen, habs⟩]

theorem profitFactor_zero_or_ratio_witness :
    (calculateAnalytics [trEx1] noFilters).summary.profitFactor = 0 ∧
    (calculateAnalytics exTrades noFilters).summary.profitFactor =
      sumPnl (winnersOf (applyFilters noFilters exTrades)) /
        |sumPnl (losersOf (applyFilters noFilters exTrades))| :=
  ⟨(profitFactor_zero_or_ratio [trEx1] noFilters).1 (by decide),
   (profitFactor_zero_or_ratio exTrades noFilters).2 (by decide)⟩

theorem pctIdx_le_pctIdx (n : ℕ) {r s : ℚ} (h : r ≤ s) : pctIdx n r ≤ pctIdx n s := by
  have hf : ⌊(n : ℚ) * r⌋ ≤ ⌊(n : ℚ) * s⌋ :=
    Int.floor_le_floor (mul_le_mul_of_nonneg_left h (by positivity))
  simp only [pctIdx]
  omega

theorem pctIdx_95_lt (n : ℕ) (hn : 0 < n) : pctIdx n (95 / 100) < n := by
  have h1 : ⌊(n : ℚ) * (95 / 100)⌋ < (n : ℤ) := by
    rw [Int.floor_lt]
    push_cast
    have h2 : (n : ℚ) * (95 / 100) < (n : ℚ) * 1 :=
      mul_lt_mul_of_pos_left (by norm_num) (by exact_mod_cast hn)
    simpa using h2
  simp only [pctIdx]
  omega

theorem getD_mono_of_sorted {l : List SimulationTrial}
    (h : List.Sorted byTotalValue l) {i j : ℕ} (hij : i ≤ j) (hj : j < l.length) :
    (l.getD i defaultTrial).totalValue ≤ (l.getD j defaultTrial).totalValue := by
  have hi : i < l.length := lt_of_le_of_lt hij hj
  rw [List.getD_eq_getElem l defaultTrial hi, List.getD_eq_getElem l defaultTrial hj]
  rcases eq_or_lt_of_le hij with heq | hlt
  · subst heq
    exact le_refl _
  · have hrel := h.rel_get_of_lt (a := ⟨i, hi⟩) (b := ⟨j, hj⟩) (Fin.mk_lt_mk.mpr hlt)
    simpa [List.get_eq_getElem, byTotalValue] using hrel

/-- Claim C4: `runTrials` sorts the `trialCount` totalValues ascending and
selects the records at the nearest-rank indices `⌊trialCount · rank⌋` for
`rank ∈ {0.05, 0.25, 0.50, 0.75, 0.95}`; hence for every `trialCount ≥ 5` the
summary satisfies
`worst.totalValue ≤ p25.totalValue ≤ median.totalValue ≤ p75.totalValue ≤ best.totalValue`. -/
theorem runMonteCarlo_percentiles_ordered (prims : MathPrims) (principal apy : ℚ)
    (days : ℤ) (n : ℕ) (rand : ℕ → ℕ → ℚ) (hn : 5 ≤ n) :
    (runMonteCarlo prims principal apy days n rand).worst.totalValue ≤
      (runMonteCarlo prims principal apy days n rand).p25.totalValue ∧
    (runMonteCarlo prims principal apy days n rand).p25.totalValue ≤
      (runMonteCarlo prims principal apy days n rand).median.totalValue ∧
    (runMonteCarlo prims principal apy days n rand).median.totalValue ≤
      (runMonteCarlo prims principal apy days n rand).p75.totalValue ∧
    (runMonteCarlo prims principal apy days n rand).p75.totalValue ≤
      (runMonteCarlo prims principal apy days n rand).best.totalValue := by
  have hn0 : 0 < n := lt_of_lt_of_le (by norm_num) hn
  simp only [runMonteCarlo]
  set results := (List.range n).map (fun i => mcTrial prims principal apy days (rand i))
    with hres
  have hs : List.Sorted byTotalValue (results.insertionSort byTotalValue) :=
    List.sorted_insertionSort byTotalValue results
  have hlen : (results.insertionSort byTotalValue).length = n := by
    rw [List.length_insertionSort, hres, List.length_map, List.length_range]
  have c1 : pctIdx n (5 / 100) ≤ pctIdx n (25 / 100) := pctIdx_le_pctIdx n (by norm_num)
  have c2 : pctIdx n (25 / 100) ≤ pctIdx n (50 / 100) := pctIdx_le_pctIdx n (by norm_num)
  have c3 : pctIdx n (50 / 100) ≤ pctIdx n (75 / 100) := pctIdx_le_pctIdx n (by norm_num)
  have c4 : pctIdx n (75 / 100) ≤ pctIdx n (95 / 100) := pctIdx_le_pctIdx n (by norm_num)
  have h95 : pctIdx n (95 / 100) < (results.insertionSort byTotalValue).length := by
    rw [hlen]
    exact pctIdx_95_lt n hn0
  refine ⟨?_, ?_, ?_, ?_⟩
  · exact getD_mono_of_sorted hs c1
      (lt_of_le_of_lt (le_trans c2 (le_trans c3 c4)) h95)
  · exact getD_mono_of_sorted hs c2 (lt_of_le_of_lt (le_trans c3 c4) h95)
  · exact getD_mono_of_sorted hs c3 (lt_of_le_of_lt c4 h95)
  · exact getD_mono_of_sorted hs c4 h95

/-- A constant two-index random stream for the C4 witness. -/
def randZero2 : ℕ → ℕ → ℚ := fun _ _ => 0

theorem runMonteCarlo_percentiles_ordered_witness :
    (runMonteCarlo constPrims 1 0 0 5 randZero2).worst.totalValue ≤
      (runMonteCarlo constPrims 1 0 0 5 randZero2).p25.totalValue ∧
    (runMonteCarlo constPrims 1 0 0 5 randZero2).p25.totalValue ≤
      (runMonteCarlo constPrims 1 0 0 5 randZero2).median.totalValue ∧
    (runMonteCarlo constPrims 1 0 0 5 randZero2).median.totalValue ≤
      (runMonteCarlo constPrims 1 0 0 5 randZero2).p75.totalValue ∧
    (runMonteCarlo constPrims 1 0 0 5 randZero2).p75.totalValue ≤
      (runMonteCarlo constPrims 1 0 0 5 randZero2).best.totalValue :=
  runMonteCarlo_percentiles_ordered constPrims 1 0 0 5 randZero2 (by norm_num)
